import Mathlib

/-!
Shallow embedding of `src/index.ts` of the angular-reset repository: a
decorator-based REST client. The embedding models the JavaScript values that
flow through the request compiler (`methodBuilder`'s `descriptor.value`
closure), the parameter-binding collector (`paramBuilder`), and the
dispatch pipeline, together with the relevant behaviour of the JavaScript /
Angular library primitives the source calls (`JSON.stringify`,
`String.prototype.replace` with a string pattern, `encodeURIComponent`,
`URLSearchParams.set`, Angular `Headers` construction and `append`).
-/

namespace AngularReset

/-- A JavaScript value, as far as the request compiler can observe one:
`undefined`, `null`, booleans, (integer) numbers, strings, arrays and plain
objects. -/
inductive JSValue where
  | undef : JSValue
  | null : JSValue
  | bool (b : Bool) : JSValue
  | num (n : Int) : JSValue
  | str (s : String) : JSValue
  | arr (xs : List JSValue) : JSValue
  | obj (fields : List (String × JSValue)) : JSValue

/-- JavaScript truthiness: `undefined`, `null`, `false`, `0` and `""` are
falsy; every other value (including every array and object) is truthy. -/
def truthy : JSValue → Bool
  | .undef => false
  | .null => false
  | .bool b => b
  | .num n => decide (n ≠ 0)
  | .str s => !s.isEmpty
  | .arr _ => true
  | .obj _ => true

/-- Models `v instanceof Object`: true exactly for arrays and plain objects (the
only non-primitive `JSValue`s). -/
def isObjectInstance : JSValue → Bool
  | .arr _ => true
  | .obj _ => true
  | _ => false

/-- Indexing `args[i]` on a JavaScript argument array: out-of-range reads give
`undefined`. -/
def getArg (args : List JSValue) (i : Nat) : JSValue :=
  args.getD i JSValue.undef

mutual

/-- JavaScript `String(v)` / string coercion, as used by
`String.prototype.replace` and `encodeURIComponent` on a non-string value. -/
def jsToString : JSValue → String
  | .undef => "undefined"
  | .null => "null"
  | .bool b => cond b "true" "false"
  | .num n => toString n
  | .str s => s
  | .arr xs => String.intercalate "," (jsToStringElems xs)
  | .obj _ => "[object Object]"

/-- Coercion of array elements by `Array.prototype.toString`, rendering `null` and
`undefined` elements as the empty string. -/
def jsToStringElems : List JSValue → List String
  | [] => []
  | x :: xs =>
    (match x with
     | .undef => ""
     | .null => ""
     | _ => jsToString x) :: jsToStringElems xs

end

/-- One character of a JSON string literal, escaped as `JSON.stringify`
escapes it. -/
def jsonEscapeChar (c : Char) : String :=
  if c = '"' then "\\\""
  else if c = '\\' then "\\\\"
  else if c = '\n' then "\\n"
  else if c = '\r' then "\\r"
  else if c = '\t' then "\\t"
  else if c = '\x08' then "\\b"
  else if c = '\x0c' then "\\f"
  else if c.toNat < 32 then
    "\\u00" ++ String.singleton ("0123456789abcdef".data.getD (c.toNat / 16) '0')
      ++ String.singleton ("0123456789abcdef".data.getD (c.toNat % 16) '0')
  else String.singleton c

/-- A JSON string literal for `s`, double-quoted and escaped. -/
def jsonQuote (s : String) : String :=
  "\"" ++ String.join (s.data.map jsonEscapeChar) ++ "\""

mutual

/-- Models `JSON.stringify(v)`: `none` models the `undefined` result (a top-level
`undefined` does not serialize). Arrays render unserializable elements as
`null`; objects skip fields whose value does not serialize. -/
def jsonStringify : JSValue → Option String
  | .undef => none
  | .null => some "null"
  | .bool b => some (cond b "true" "false")
  | .num n => some (toString n)
  | .str s => some (jsonQuote s)
  | .arr xs => some ("[" ++ String.intercalate "," (jsonStringifyElems xs) ++ "]")
  | .obj fields => some ("\x7b" ++ String.intercalate "," (jsonStringifyFields fields) ++ "\x7d")

/-- Elements of a serialized array: an element that does not serialize
becomes `null`. -/
def jsonStringifyElems : List JSValue → List String
  | [] => []
  | x :: xs => ((jsonStringify x).getD "null") :: jsonStringifyElems xs

/-- Fields of a serialized object: a field whose value does not serialize is
skipped. -/
def jsonStringifyFields : List (String × JSValue) → List String
  | [] => []
  | (k, v) :: rest =>
    match jsonStringify v with
    | some s => (jsonQuote k ++ ":" ++ s) :: jsonStringifyFields rest
    | none => jsonStringifyFields rest

end

/-- The characters `encodeURIComponent` leaves unescaped: ASCII letters and
digits and `- _ . ! ~ * ' ( )`. -/
def isURIUnescaped (c : Char) : Bool :=
  c.isAlphanum || c = '-' || c = '_' || c = '.' || c = '!' || c = '~' ||
    c = '*' || c = Char.ofNat 39 || c = '(' || c = ')'

/-- The UTF-8 bytes of a character, as `encodeURIComponent` percent-encodes
them. -/
def utf8Bytes (c : Char) : List Nat :=
  let n := c.toNat
  if n < 0x80 then [n]
  else if n < 0x800 then
    [0xC0 ||| (n >>> 6), 0x80 ||| (n &&& 0x3F)]
  else if n < 0x10000 then
    [0xE0 ||| (n >>> 12), 0x80 ||| ((n >>> 6) &&& 0x3F), 0x80 ||| (n &&& 0x3F)]
  else
    [0xF0 ||| (n >>> 18), 0x80 ||| ((n >>> 12) &&& 0x3F),
      0x80 ||| ((n >>> 6) &&& 0x3F), 0x80 ||| (n &&& 0x3F)]

/-- An uppercase hexadecimal digit. -/
def upperHexDigit (n : Nat) : Char :=
  "0123456789ABCDEF".data.getD n '0'

/-- Percent-encoding `%XX` of one byte. -/
def percentByte (b : Nat) : String :=
  "%" ++ String.singleton (upperHexDigit (b / 16)) ++ String.singleton (upperHexDigit (b % 16))

/-- Models `encodeURIComponent(s)` for a string argument. -/
def encodeURIComponentStr (s : String) : String :=
  String.join (s.data.map fun c =>
    if isURIUnescaped c then String.singleton c
    else String.join ((utf8Bytes c).map percentByte))

/-- The dollar character `$` (code 36), which opens a substitution pattern
in a `String.prototype.replace` replacement string. -/
def dollarChar : Char := Char.ofNat 36

/-- The ampersand `&` (code 38): `$&` inserts the matched substring. -/
def ampChar : Char := Char.ofNat 38

/-- The backquote (code 96): `$` followed by it inserts the portion of the
string preceding the match. -/
def backquoteChar : Char := Char.ofNat 96

/-- The single quote (code 39): `$` followed by it inserts the portion of
the string following the match. -/
def quoteChar : Char := Char.ofNat 39

/-- The GetSubstitution step of `String.prototype.replace` on the
replacement string: `$$` inserts a dollar, `$&` the matched substring,
a dollar-backquote the text before the match, a dollar-quote the text
after the match; any other use of `$` is literal. With a string search
value there are no capture groups, so `$n` and the `$<` form are literal
as well. -/
def getSubstitution (matched before after : List Char) : List Char → List Char
  | [] => []
  | [c] => [c]
  | c :: c2 :: rest =>
    if c = dollarChar then
      if c2 = dollarChar then dollarChar :: getSubstitution matched before after rest
      else if c2 = ampChar then matched ++ getSubstitution matched before after rest
      else if c2 = backquoteChar then before ++ getSubstitution matched before after rest
      else if c2 = quoteChar then after ++ getSubstitution matched before after rest
      else c :: getSubstitution matched before after (c2 :: rest)
    else c :: getSubstitution matched before after (c2 :: rest)

/-- First-occurrence replacement on character lists: the core of
`String.prototype.replace` with a string pattern. Scans left to right;
`seen` accumulates the text before the current position. At the first
position where `pat` matches, the replacement text is produced by
`getSubstitution` from the matched text, the text before the match and the
text after it; the remainder after the match is kept and never rescanned. -/
def listReplaceFirstAux (pat rep seen : List Char) : List Char → List Char
  | [] => []
  | c :: cs =>
    if pat.isPrefixOf (c :: cs) then
      getSubstitution pat seen ((c :: cs).drop pat.length) rep ++ (c :: cs).drop pat.length
    else c :: listReplaceFirstAux pat rep (seen ++ [c]) cs

/-- First-occurrence replacement, started with an empty before-text. -/
def listReplaceFirst (pat rep s : List Char) : List Char :=
  listReplaceFirstAux pat rep [] s

/-- Models `s.replace(pat, rep)` for string `pat` and `rep`: replaces only
the first occurrence of `pat`, processing the `$` substitution patterns of
the replacement string; an empty pattern matches at the start (with empty
matched text and before-text, and the whole string as after-text). -/
def jsReplaceFirst (s pat rep : String) : String :=
  if pat.data.isEmpty then ⟨getSubstitution [] [] s.data rep.data ++ s.data⟩
  else ⟨listReplaceFirst pat.data rep.data s.data⟩

/-- The object `paramBuilder` pushes: `{ key, parameterIndex }`
(`src/index.ts` lines 115–118). -/
structure ParamBinding where
  key : String
  parameterIndex : Nat
deriving DecidableEq

/-- The metadata `methodBuilder` reads for one decorated method
(`src/index.ts` lines 186–189 and the `descriptor` fields set by `Headers`
and `Produces`): the HTTP verb, the URL template, the four per-role binding
lists, the static header object, and the `isJSON` flag. An absent metadata
slot is modelled as the empty list — `paramBuilder` never creates an empty
array, so `if (pPath)`-style guards coincide with non-emptiness on every
reachable state. -/
structure MethodMeta where
  method : Nat
  url : String
  pPath : List ParamBinding
  pQuery : List ParamBinding
  pBody : List ParamBinding
  pHeader : List ParamBinding
  headersDef : List (String × JSValue)
  isJSON : Bool

/-- The per-client configuration read through the overridable accessors
`getBaseUrl` and `getDefaultHeaders`; `none` models the default `null`
returned by the base `RESTClient` (lines 54–60). -/
structure ClientConfig where
  baseUrl : Option String
  defaultHeaders : Option (List (String × JSValue))

/-- Angular `Headers.append(name, value)`: pushes `value` onto the existing
value list for `name`, or adds a new `(name, [value])` entry at the end of
the insertion-ordered map. -/
def headersAppend (hs : List (String × List JSValue)) (k : String) (v : JSValue) :
    List (String × List JSValue) :=
  match hs with
  | [] => [(k, [v])]
  | (k', vs) :: rest =>
    if k' = k then (k', vs ++ [v]) :: rest
    else (k', vs) :: headersAppend rest k v

/-- Models `new Headers(obj)`: appends each entry of the key-value object in
order; `new Headers(null)` (the default `getDefaultHeaders`) yields the
empty header map. -/
def headersOfObject : Option (List (String × JSValue)) → List (String × List JSValue)
  | none => []
  | some o => o.foldl (fun h kv => headersAppend h kv.1 kv.2) []

/-- The value list recorded for header `k` (empty when `k` is absent). -/
def lookupVals (hs : List (String × List JSValue)) (k : String) : List JSValue :=
  match hs with
  | [] => []
  | (k', vs) :: rest => if k' = k then vs else lookupVals rest k

/-- Models `URLSearchParams.set(k, v)`: replaces the value of an existing
parameter in place, or appends a new parameter at the end. -/
def searchSet (q : List (String × String)) (k v : String) : List (String × String) :=
  match q with
  | [] => [(k, v)]
  | (k', v') :: rest =>
    if k' = k then (k', v) :: rest
    else (k', v') :: searchSet rest k v

/-- The value of a query parameter in `searchSet` form (`none` when the
parameter is absent). -/
def lookupSearch (q : List (String × String)) (k : String) : Option String :=
  match q with
  | [] => none
  | (k', v') :: rest => if k' = k then some v' else lookupSearch rest k

/-- The string stored as a query parameter's value (`src/index.ts` lines
216–221): a value that is an `instanceof Object` is `JSON.stringify`ed
first, and the result is passed through `encodeURIComponent` (which
string-coerces its argument). -/
def queryParamValue (v : JSValue) : String :=
  let v' := if isObjectInstance v then JSValue.str ((jsonStringify v).getD "undefined") else v
  encodeURIComponentStr (jsToString v')

/-- The fully resolved request assembled from `RequestOptions` (lines
244–252): method, composed URL, header map, optional serialized body, and
query parameters. -/
structure RequestDescriptor where
  method : Nat
  url : String
  headers : List (String × List JSValue)
  body : Option String
  search : List (String × String)

/-- Path resolution (lines 199–207): each Path binding, in registration
order, replaces the first occurrence of the literal `\x7bkey\x7d` in the
(partially resolved) URL template with the string coercion of its
argument. -/
def resolvePath (meta : MethodMeta) (args : List JSValue) : String :=
  meta.pPath.foldl
    (fun u p =>
      jsReplaceFirst u ("\x7b" ++ p.key ++ "\x7d") (jsToString (getArg args p.parameterIndex)))
    meta.url

/-- Query assembly (lines 209–223): bindings whose argument is falsy are
filtered out; each retained binding `set`s its percent-encoded key and
`queryParamValue`. -/
def buildSearch (meta : MethodMeta) (args : List JSValue) : List (String × String) :=
  (meta.pQuery.filter fun p => truthy (getArg args p.parameterIndex)).foldl
    (fun q p =>
      searchSet q (encodeURIComponentStr p.key) (queryParamValue (getArg args p.parameterIndex)))
    []

/-- Header assembly (lines 225–241): the map starts from the client default
headers, then the static `descriptor.headers` entries are `append`ed in
order, then each Header binding `append`s its argument value. -/
def buildHeaders (meta : MethodMeta) (cfg : ClientConfig) (args : List JSValue) :
    List (String × List JSValue) :=
  let h0 := headersOfObject cfg.defaultHeaders
  let h1 := meta.headersDef.foldl (fun h kv => headersAppend h kv.1 kv.2) h0
  meta.pHeader.foldl (fun h p => headersAppend h p.key (getArg args p.parameterIndex)) h1

/-- Body serialization (lines 193–197): `null` (absent) unless a Body
binding list exists, in which case the argument at the position of the
binding at index 0 is `JSON.stringify`ed. -/
def buildBody (meta : MethodMeta) (args : List JSValue) : Option String :=
  match meta.pBody with
  | [] => none
  | p :: _ => jsonStringify (getArg args p.parameterIndex)

/-- JavaScript `baseUrl + resUrl` where `baseUrl` may be the default
`null`: `null + s` string-coerces `null` to `"null"`. -/
def composeUrl (baseUrl : Option String) (resUrl : String) : String :=
  (match baseUrl with
   | some s => s
   | none => "null") ++ resUrl

/-- The request compiler: the part of `descriptor.value` (lines 191–252)
that turns the method metadata, the client configuration and the live
argument array into the `Request`. -/
def compile (meta : MethodMeta) (cfg : ClientConfig) (args : List JSValue) :
    RequestDescriptor :=
  { method := meta.method
    url := composeUrl cfg.baseUrl (resolvePath meta args)
    headers := buildHeaders meta cfg args
    body := buildBody meta args
    search := buildSearch meta args }

/-- The default `RESTClient.requestInterceptor` (lines 68–70): observes the
request and changes nothing. -/
def requestInterceptorDefault (req : RequestDescriptor) : RequestDescriptor := req

/-- The default `RESTClient.responseInterceptor` (lines 79–81): returns the
observable unchanged. -/
def responseInterceptorDefault (res : List JSValue) : List JSValue := res

/-- The dispatch pipeline (lines 254–267), with an observable modelled as
the list of values it emits: the compiled request is passed to the request
interceptor (an in-place mutation, modelled as a request-to-request
function), the resulting request is handed to the transport's `send`, the
raw observable is mapped through `res.json()` when `isJSON` is set, and the
response interceptor transforms the final observable. -/
def runCall (reqInterceptor : RequestDescriptor → RequestDescriptor)
    (respInterceptor : List JSValue → List JSValue)
    (send : RequestDescriptor → List JSValue) (parseJson : JSValue → JSValue)
    (isJSON : Bool) (compiled : RequestDescriptor) : List JSValue :=
  let req := reqInterceptor compiled
  let observable := send req
  let observable := if isJSON then observable.map parseJson else observable
  respInterceptor observable

/-- A full invocation of a decorated method: compile, then run the dispatch
pipeline. -/
def invokeOperation (meta : MethodMeta) (cfg : ClientConfig)
    (reqInterceptor : RequestDescriptor → RequestDescriptor)
    (respInterceptor : List JSValue → List JSValue)
    (send : RequestDescriptor → List JSValue) (parseJson : JSValue → JSValue)
    (args : List JSValue) : List JSValue :=
  runCall reqInterceptor respInterceptor send parseJson meta.isJSON (compile meta cfg args)

/-- One decorator application produced by `paramBuilder` (lines 111–126):
push `{key, parameterIndex}` onto the metadata array, creating a singleton
array when the slot is still absent (`none`). -/
def paramBuilderStep (slot : Option (List ParamBinding)) (key : String) (idx : Nat) :
    List ParamBinding :=
  match slot with
  | some l => l ++ [⟨key, idx⟩]
  | none => [⟨key, idx⟩]

/-- A sequence of binding registrations for one `(method, role)` metadata
slot, starting from the absent slot. -/
def registerList (regs : List (String × Nat)) : Option (List ParamBinding) :=
  regs.foldl (fun slot r => some (paramBuilderStep slot r.1 r.2)) none

/-- Value of `RequestMethod.Get` in Angular http. -/
def requestMethodGet : Nat := 0

/-- Value of `RequestMethod.Post` in Angular http. -/
def requestMethodPost : Nat := 1

/-- GET `/users/\x7bid\x7d` with Path binding `id` at position 0 and Query
binding `active` at position 1 (the spec's scenario operation). -/
def usersMeta : MethodMeta :=
  { method := requestMethodGet
    url := "/users/\x7bid\x7d"
    pPath := [⟨"id", 0⟩]
    pQuery := [⟨"active", 1⟩]
    pBody := []
    pHeader := []
    headersDef := []
    isJSON := false }

/-- A client whose `getBaseUrl` yields `"https://api.test"` and whose
default headers are absent. -/
def apiTestConfig : ClientConfig :=
  { baseUrl := some "https://api.test", defaultHeaders := none }

/-- A client with both accessors left at their `null` defaults. -/
def nullConfig : ClientConfig := { baseUrl := none, defaultHeaders := none }

/-- Operation with default headers `A:1`, static headers `A:2, B:3` and a
per-call Header binding on `A` (the spec's header-merge example). -/
def mergeMeta : MethodMeta :=
  { method := requestMethodGet
    url := "/x"
    pPath := []
    pQuery := []
    pBody := []
    pHeader := [⟨"A", 0⟩]
    headersDef := [("A", JSValue.str "2"), ("B", JSValue.str "3")]
    isJSON := false }

/-- A client whose default headers are `A:1`. -/
def mergeConfig : ClientConfig :=
  { baseUrl := some "", defaultHeaders := some [("A", JSValue.str "1")] }

/-- Operation with Query bindings `a` at position 0 and `b` at position 1. -/
def queryMeta : MethodMeta :=
  { method := requestMethodGet
    url := "/q"
    pPath := []
    pQuery := [⟨"a", 0⟩, ⟨"b", 1⟩]
    pBody := []
    pHeader := []
    headersDef := []
    isJSON := false }

/-- Operation with no bindings at all. -/
def plainMeta : MethodMeta :=
  { method := requestMethodPost
    url := "/p"
    pPath := []
    pQuery := []
    pBody := []
    pHeader := []
    headersDef := []
    isJSON := false }

/-- Operation with a single Body binding at position 0. -/
def bodyMeta : MethodMeta :=
  { method := requestMethodPost
    url := "/p"
    pPath := []
    pQuery := []
    pBody := [⟨"Body", 0⟩]
    pHeader := []
    headersDef := []
    isJSON := false }

/-- Operation with a Header binding `X` at (out-of-range) position 5. -/
def headerMeta : MethodMeta :=
  { method := requestMethodGet
    url := "/h"
    pPath := []
    pQuery := []
    pBody := []
    pHeader := [⟨"X", 5⟩]
    headersDef := []
    isJSON := false }

/-- Operation with `isJSON` set (a `@Produces(MediaType.JSON)` method). -/
def jsonMeta : MethodMeta :=
  { method := requestMethodGet
    url := "/j"
    pPath := []
    pQuery := []
    pBody := []
    pHeader := []
    headersDef := []
    isJSON := true }

/- Helper lemmas -/

theorem lookupVals_headersAppend (hs : List (String × List JSValue)) (k v k') :
    lookupVals (headersAppend hs k v) k'
      = lookupVals hs k' ++ (if k = k' then [v] else []) := by
  induction hs with
  | nil => simp [headersAppend, lookupVals]
  | cons e rest ih =>
    obtain ⟨k'', vs⟩ := e
    by_cases h1 : k'' = k
    · subst h1
      by_cases h2 : k'' = k' <;> simp [headersAppend, lookupVals, h2]
    · by_cases h2 : k'' = k'
      · subst h2
        have : ¬ k = k'' := fun h => h1 h.symm
        simp [headersAppend, lookupVals, h1, this]
      · simp [headersAppend, lookupVals, h1, h2, ih]

theorem lookupVals_foldl_headersAppend {α : Type} (f : α → String) (g : α → JSValue)
    (l : List α) (hs : List (String × List JSValue)) (k : String) :
    lookupVals (l.foldl (fun h x => headersAppend h (f x) (g x)) hs) k
      = lookupVals hs k ++ (l.filter fun x => f x == k).map g := by
  induction l generalizing hs with
  | nil => simp
  | cons x xs ih =>
    by_cases hx : f x = k
    · simp [List.foldl_cons, ih, lookupVals_headersAppend, hx, List.filter_cons]
    · simp [List.foldl_cons, ih, lookupVals_headersAppend, hx, List.filter_cons]

theorem lookupVals_buildHeaders (meta : MethodMeta) (cfg : ClientConfig)
    (args : List JSValue) (k : String) :
    lookupVals (buildHeaders meta cfg args) k
      = lookupVals (headersOfObject cfg.defaultHeaders) k
        ++ (meta.headersDef.filter fun kv => kv.1 == k).map Prod.snd
        ++ (meta.pHeader.filter fun p => p.key == k).map
            (fun p => getArg args p.parameterIndex) := by
  have h2 := lookupVals_foldl_headersAppend (fun p : ParamBinding => p.key)
    (fun p => getArg args p.parameterIndex) meta.pHeader
    (meta.headersDef.foldl (fun h kv => headersAppend h kv.1 kv.2)
      (headersOfObject cfg.defaultHeaders)) k
  have h1 := lookupVals_foldl_headersAppend (Prod.fst (β := JSValue)) Prod.snd
    meta.headersDef (headersOfObject cfg.defaultHeaders) k
  calc lookupVals (buildHeaders meta cfg args) k
      = lookupVals (meta.headersDef.foldl (fun h kv => headersAppend h kv.1 kv.2)
          (headersOfObject cfg.defaultHeaders)) k
        ++ (meta.pHeader.filter fun p => p.key == k).map
            (fun p => getArg args p.parameterIndex) := h2
    _ = lookupVals (headersOfObject cfg.defaultHeaders) k
        ++ (meta.headersDef.filter fun kv => kv.1 == k).map Prod.snd
        ++ (meta.pHeader.filter fun p => p.key == k).map
            (fun p => getArg args p.parameterIndex) := by rw [h1]

/-- C1 (counterexample): with default headers `A:1`, static headers
`A:2, B:3` and a per-call Header binding giving `A:4`, the compiled headers
are NOT `A:4, B:3` — the three layers are `append`ed, so nothing is
overridden and `A` carries all three values. -/
theorem headerMergeOverrideCounterexample :
    (compile mergeMeta mergeConfig [JSValue.str "4"]).headers
      ≠ [("A", [JSValue.str "4"]), ("B", [JSValue.str "3"])] := by
  intro h
  exact absurd (congrArg (fun hs => (lookupVals hs "A").length) h) (by decide)

/-- C1 (amended): the three header layers are merged in the order
client-level defaults, operation-level static headers, per-call Header
bindings, but by `Headers.append`: on key collision a later layer's value
is appended after the earlier ones rather than overriding them, so the
value list of every key is the concatenation of the three layers'
contributions in layering order. -/
theorem headerMergeAppendsSpec (meta : MethodMeta) (cfg : ClientConfig)
    (args : List JSValue) (k : String) :
    lookupVals (compile meta cfg args).headers k
      = lookupVals (headersOfObject cfg.defaultHeaders) k
        ++ (meta.headersDef.filter fun kv => kv.1 == k).map Prod.snd
        ++ (meta.pHeader.filter fun p => p.key == k).map
            (fun p => getArg args p.parameterIndex) :=
  lookupVals_buildHeaders meta cfg args k

/-- C10: Header bindings are not filtered by truthiness: every Header
binding contributes an entry under its key whose value is the raw bound
argument — even a falsy or out-of-range (`undefined`) one. -/
theorem headerBindingAlwaysApplied (meta : MethodMeta) (cfg : ClientConfig)
    (args : List JSValue) (p : ParamBinding) (hp : p ∈ meta.pHeader) :
    getArg args p.parameterIndex ∈ lookupVals (compile meta cfg args).headers p.key := by
  show getArg args p.parameterIndex ∈ lookupVals (buildHeaders meta cfg args) p.key
  rw [lookupVals_buildHeaders]
  refine List.mem_append.mpr (Or.inr (List.mem_map.mpr ⟨p, ?_, rfl⟩))
  exact List.mem_filter.mpr ⟨hp, by simp⟩

/-- C10 (witness): a Header binding on key `X` at out-of-range position 5,
called with no arguments, still records a header `X` whose value is
`undefined`. -/
theorem headerBindingAlwaysApplied_witness :
    JSValue.undef ∈ lookupVals (compile headerMeta nullConfig []).headers "X" :=
  headerBindingAlwaysApplied headerMeta nullConfig [] ⟨"X", 5⟩ (by decide)

theorem lookupSearch_searchSet (q : List (String × String)) (k v k') :
    lookupSearch (searchSet q k v) k'
      = if k = k' then some v else lookupSearch q k' := by
  induction q with
  | nil => simp [searchSet, lookupSearch]
  | cons e rest ih =>
    obtain ⟨k'', v''⟩ := e
    by_cases h1 : k'' = k
    · subst h1
      by_cases h2 : k'' = k' <;> simp [searchSet, lookupSearch, h2]
    · by_cases h2 : k'' = k'
      · subst h2
        have : ¬ k = k'' := fun h => h1 h.symm
        simp [searchSet, lookupSearch, h1, this]
      · simp [searchSet, lookupSearch, h1, h2, ih]

theorem lookupSearch_foldl_of_no_key {α : Type} (f : α → String) (g : α → String)
    (l : List α) (q : List (String × String)) (k : String)
    (hk : ∀ x ∈ l, f x ≠ k) :
    lookupSearch (l.foldl (fun q x => searchSet q (f x) (g x)) q) k
      = lookupSearch q k := by
  induction l generalizing q with
  | nil => rfl
  | cons x xs ih =>
    rw [List.foldl_cons, ih _ fun y hy => hk y (List.mem_cons_of_mem x hy),
      lookupSearch_searchSet, if_neg (hk x (List.mem_cons_self x xs))]

theorem lookupSearch_foldl_of_mem {α : Type} (f : α → String) (g : α → String)
    (l : List α) (q : List (String × String)) (p : α)
    (hp : p ∈ l) (hnd : (l.map f).Nodup) :
    lookupSearch (l.foldl (fun q x => searchSet q (f x) (g x)) q) (f p)
      = some (g p) := by
  induction l generalizing q with
  | nil => cases hp
  | cons x xs ih =>
    rw [List.map_cons, List.nodup_cons] at hnd
    rcases List.mem_cons.mp hp with h | h
    · subst h
      rw [List.foldl_cons,
        lookupSearch_foldl_of_no_key f g xs _ _ (fun y hy hfy =>
          hnd.1 (by rw [← hfy]; exact List.mem_map_of_mem f hy)),
        lookupSearch_searchSet, if_pos rfl]
    · rw [List.foldl_cons]
      exact ih _ h hnd.2

/-- C2: Query assembly drops every binding whose bound argument is falsy,
and for a retained binding stores, under the percent-encoded key, the
`queryParamValue` — which for a composite (`instanceof Object`) value is
the percent-encoding of its `JSON.stringify` string. The binding's key is
assumed not to collide with another Query binding's percent-encoded key. -/
theorem queryAssemblySpec (meta : MethodMeta) (cfg : ClientConfig)
    (args : List JSValue) (p : ParamBinding) (hp : p ∈ meta.pQuery)
    (hnd : (meta.pQuery.map fun q => encodeURIComponentStr q.key).Nodup) :
    (truthy (getArg args p.parameterIndex) = false →
      lookupSearch (compile meta cfg args).search (encodeURIComponentStr p.key) = none) ∧
    (truthy (getArg args p.parameterIndex) = true →
      lookupSearch (compile meta cfg args).search (encodeURIComponentStr p.key)
        = some (queryParamValue (getArg args p.parameterIndex))) ∧
    (∀ s, isObjectInstance (getArg args p.parameterIndex) = true →
      jsonStringify (getArg args p.parameterIndex) = some s →
      queryParamValue (getArg args p.parameterIndex) = encodeURIComponentStr s) := by
  have hinj := List.inj_on_of_nodup_map hnd
  refine ⟨fun hfalse => ?_, fun htrue => ?_, fun s hobj hjson => ?_⟩
  · show lookupSearch (buildSearch meta args) (encodeURIComponentStr p.key) = none
    unfold buildSearch
    rw [lookupSearch_foldl_of_no_key]
    · rfl
    · intro x hx hfx
      have hxq : x ∈ meta.pQuery := List.mem_of_mem_filter hx
      have hxp : x = p := hinj hxq hp hfx
      have := (List.mem_filter.mp hx).2
      rw [hxp, hfalse] at this
      cases this
  · show lookupSearch (buildSearch meta args) (encodeURIComponentStr p.key)
      = some (queryParamValue (getArg args p.parameterIndex))
    unfold buildSearch
    have hmem : p ∈ meta.pQuery.filter (fun x => truthy (getArg args x.parameterIndex)) :=
      List.mem_filter.mpr ⟨hp, htrue⟩
    have hnd' : ((meta.pQuery.filter (fun x => truthy (getArg args x.parameterIndex))).map
        (fun q => encodeURIComponentStr q.key)).Nodup :=
      hnd.sublist (List.Sublist.map _ (List.filter_sublist _))
    exact lookupSearch_foldl_of_mem (fun x => encodeURIComponentStr x.key)
      (fun x => queryParamValue (getArg args x.parameterIndex)) _ _ p hmem hnd'
  · unfold queryParamValue
    rw [hobj, hjson]
    rfl

/-- C2 (witness): with Query bindings `a` (position 0) and `b`
(position 1), calling with arguments `0` and `\x7bx:1\x7d` omits `a` from the
query map and stores under `b` the percent-encoded JSON string
`%7B%22x%22%3A1%7D`. -/
theorem queryAssemblySpec_witness :
    lookupSearch (compile queryMeta nullConfig
        [JSValue.num 0, JSValue.obj [("x", JSValue.num 1)]]).search "a" = none ∧
    lookupSearch (compile queryMeta nullConfig
        [JSValue.num 0, JSValue.obj [("x", JSValue.num 1)]]).search "b"
      = some "%7B%22x%22%3A1%7D" := by
  constructor
  · have h := (queryAssemblySpec queryMeta nullConfig
      [JSValue.num 0, JSValue.obj [("x", JSValue.num 1)]] ⟨"a", 0⟩
      (by decide) (by decide)).1 (by decide)
    rw [show encodeURIComponentStr "a" = "a" by decide] at h
    exact h
  · have h := (queryAssemblySpec queryMeta nullConfig
      [JSValue.num 0, JSValue.obj [("x", JSValue.num 1)]] ⟨"b", 1⟩
      (by decide) (by decide)).2.1 (by decide)
    rw [show encodeURIComponentStr "b" = "b" by decide] at h
    rw [h]
    decide

/-- C3: with a Body binding list, the compiled body is the
`JSON.stringify` of the argument at the position of the binding at index 0
(the rest of the list is ignored); with no Body binding the body is absent
(`none`) — in particular never `some ""` and never `some "null"`. -/
theorem bodySpec (meta : MethodMeta) (cfg : ClientConfig) (args : List JSValue) :
    (meta.pBody = [] → (compile meta cfg args).body = none) ∧
    (∀ p rest, meta.pBody = p :: rest →
      (compile meta cfg args).body = jsonStringify (getArg args p.parameterIndex)) := by
  constructor
  · intro h
    show buildBody meta args = none
    rw [buildBody, h]
  · intro p rest h
    show buildBody meta args = jsonStringify (getArg args p.parameterIndex)
    rw [buildBody, h]

/-- C3 (witness): an operation with no Body binding compiles to an absent
body, and one whose Body binding is at position 0 serializes the object
argument `\x7bx:1\x7d` to the JSON string. -/
theorem bodySpec_witness :
    (compile plainMeta nullConfig [JSValue.obj [("x", JSValue.num 1)]]).body = none ∧
    (compile bodyMeta nullConfig [JSValue.obj [("x", JSValue.num 1)]]).body
      = some "\x7b\"x\":1\x7d" := by
  constructor
  · exact (bodySpec plainMeta nullConfig [JSValue.obj [("x", JSValue.num 1)]]).1 rfl
  · rw [(bodySpec bodyMeta nullConfig [JSValue.obj [("x", JSValue.num 1)]]).2
      ⟨"Body", 0⟩ [] rfl]
    decide

/-- C5: the scenario operation GET `/users/\x7bid\x7d` with Path binding `id`
at position 0 and Query binding `active` at position 1, called with
arguments `["42", true]` on base URL `"https://api.test"`, compiles to the
URL `"https://api.test/users/42"` and the query map `active=true`. -/
theorem scenarioUsersSpec :
    (compile usersMeta apiTestConfig [JSValue.str "42", JSValue.bool true]).url
      = "https://api.test/users/42" ∧
    (compile usersMeta apiTestConfig [JSValue.str "42", JSValue.bool true]).search
      = [("active", "true")] := by
  decide

/-- C6 (counterexample): with the base `RESTClient`'s default `getBaseUrl`
(which returns `null`), the compiled URL is NOT the resolved path alone:
JavaScript's `null + resUrl` string-coerces `null`, so the URL is
`"null/users/42"`. -/
theorem absentBaseUrlCounterexample :
    (compile usersMeta nullConfig [JSValue.str "42", JSValue.bool true]).url
      ≠ "/users/42" := by
  decide

/-- C6 (amended): compiling with an absent (`null`) base URL does not
crash, but the `null` is coerced to the string `"null"` by the `+`
concatenation, so the compiled URL is `"null"` followed by the resolved
path — not the resolved path alone. -/
theorem absentBaseUrlSpec (meta : MethodMeta)
    (dh : Option (List (String × JSValue))) (args : List JSValue) :
    (compile meta ⟨none, dh⟩ args).url = "null" ++ resolvePath meta args :=
  rfl

/-- C7: each `paramBuilder` registration appends one
`\x7bkey, parameterIndex\x7d` binding at the end of the slot's list (creating
the list on first use); duplicates are appended, never overwritten, so
after `n` registrations the slot holds exactly the `n` bindings in
registration order. -/
theorem registerBindingAppends (regs : List (String × Nat)) :
    (registerList regs).getD [] = regs.map (fun r => ParamBinding.mk r.1 r.2) ∧
    ((registerList regs).getD []).length = regs.length ∧
    (registerList regs = none ↔ regs = []) := by
  have key : ∀ (rs : List (String × Nat)) (l : List ParamBinding),
      rs.foldl (fun slot r => some (paramBuilderStep slot r.1 r.2)) (some l)
        = some (l ++ rs.map fun r => ParamBinding.mk r.1 r.2) := by
    intro rs
    induction rs with
    | nil => simp
    | cons r rs ih =>
      intro l
      rw [List.foldl_cons]
      show rs.foldl _ (some (l ++ [⟨r.1, r.2⟩])) = _
      rw [ih]
      simp
  cases regs with
  | nil => simp [registerList]
  | cons r rs =>
    have h : registerList (r :: rs) = some (([⟨r.1, r.2⟩] : List ParamBinding)
        ++ rs.map fun r => ParamBinding.mk r.1 r.2) := by
      show rs.foldl _ (some (paramBuilderStep none r.1 r.2)) = _
      exact key rs [⟨r.1, r.2⟩]
    refine ⟨?_, ?_, ?_⟩
    · rw [h]; simp
    · rw [h]; simp
    · rw [h]; simp

/-- C7 (witness): two duplicate registrations followed by a third one yield
a three-element list in registration order. -/
theorem registerBindingAppends_witness :
    (registerList [("a", 0), ("a", 0), ("b", 2)]).getD []
      = [⟨"a", 0⟩, ⟨"a", 0⟩, ⟨"b", 2⟩] :=
  (registerBindingAppends [("a", 0), ("a", 0), ("b", 2)]).1.trans (by decide)

/-- C8: a call runs compile → request interceptor → transport `send` →
(`res.json()` map iff `isJSON`) → response interceptor, in that order: the
transport receives exactly the interceptor-processed compiled request, the
response interceptor receives the deserialized stream when `isJSON` is set
and the raw stream otherwise, and the default response interceptor is the
identity. -/
theorem dispatchPipelineSpec (meta : MethodMeta) (cfg : ClientConfig)
    (reqI : RequestDescriptor → RequestDescriptor)
    (respI : List JSValue → List JSValue)
    (send : RequestDescriptor → List JSValue) (parseJson : JSValue → JSValue)
    (args : List JSValue) :
    (meta.isJSON = true →
      invokeOperation meta cfg reqI respI send parseJson args
        = respI ((send (reqI (compile meta cfg args))).map parseJson)) ∧
    (meta.isJSON = false →
      invokeOperation meta cfg reqI respI send parseJson args
        = respI (send (reqI (compile meta cfg args)))) ∧
    (∀ res : List JSValue, responseInterceptorDefault res = res) := by
  refine ⟨fun h => ?_, fun h => ?_, fun _ => rfl⟩
  · rw [invokeOperation, runCall, h, if_pos rfl]
  · rw [invokeOperation, runCall, h, if_neg Bool.false_ne_true]

/-- C8 (witness): on a `@Produces(JSON)` method with identity interceptors
and a transport emitting a single raw value, the call yields the parsed
value. -/
theorem dispatchPipelineSpec_witness :
    invokeOperation jsonMeta nullConfig (fun r => r) (fun l => l)
      (fun _ => [JSValue.str "raw"]) (fun _ => JSValue.str "parsed") []
      = [JSValue.str "parsed"] := by
  rw [(dispatchPipelineSpec jsonMeta nullConfig (fun r => r) (fun l => l)
    (fun _ => [JSValue.str "raw"]) (fun _ => JSValue.str "parsed") []).1 rfl]
  rfl

theorem isPrefixOf_append_self (l t : List Char) : l.isPrefixOf (l ++ t) = true := by
  induction l with
  | nil => simp [List.isPrefixOf]
  | cons c cs ih => simp [List.isPrefixOf, ih]

theorem getSubstitution_of_no_dollar (matched before after rep : List Char)
    (h : dollarChar ∉ rep) :
    getSubstitution matched before after rep = rep := by
  induction rep with
  | nil => rfl
  | cons c rest ih =>
    have hc : ¬ c = dollarChar := fun he =>
      h (he ▸ List.mem_cons_self c rest)
    have hrest : dollarChar ∉ rest := fun hm => h (List.mem_cons_of_mem c hm)
    cases rest with
    | nil => rfl
    | cons c2 rest' => rw [getSubstitution, if_neg hc, ih hrest]

theorem listReplaceFirstAux_first_occurrence (pat rep b : List Char) (a seen : List Char)
    (hpat : pat ≠ [])
    (hfirst : ∀ i, i < a.length →
      pat.isPrefixOf ((a ++ (pat ++ b)).drop i) = false) :
    listReplaceFirstAux pat rep seen (a ++ (pat ++ b))
      = a ++ (getSubstitution pat (seen ++ a) b rep ++ b) := by
  induction a generalizing seen with
  | nil =>
    cases pat with
    | nil => exact absurd rfl hpat
    | cons c cs =>
      have h1 : (c :: cs).isPrefixOf ((c :: cs) ++ b) = true := isPrefixOf_append_self _ _
      have h2 : ((c :: cs) ++ b).drop (c :: cs).length = b := List.drop_left _ _
      simp only [List.nil_append, List.cons_append] at h1 h2 ⊢
      rw [listReplaceFirstAux, h1, if_pos rfl, h2]
      simp
  | cons c a' ih =>
    have h0 : pat.isPrefixOf ((c :: a') ++ (pat ++ b)) = false := by
      have := hfirst 0 (by simp)
      simpa using this
    simp only [List.cons_append] at h0 ⊢
    rw [listReplaceFirstAux, h0]
    simp only [Bool.false_eq_true, if_false, List.cons.injEq, true_and]
    rw [ih (seen ++ [c]) fun i hi => by
      have := hfirst (i + 1) (by simpa using Nat.succ_lt_succ hi)
      simpa using this]
    simp

theorem listReplaceFirst_first_occurrence (pat rep b : List Char) (a : List Char)
    (hpat : pat ≠ [])
    (hfirst : ∀ i, i < a.length →
      pat.isPrefixOf ((a ++ (pat ++ b)).drop i) = false) :
    listReplaceFirst pat rep (a ++ (pat ++ b))
      = a ++ (getSubstitution pat a b rep ++ b) := by
  have h := listReplaceFirstAux_first_occurrence pat rep b a [] hpat hfirst
  simpa [listReplaceFirst] using h

/-- C4 (counterexample): the substitution is not literal for every argument
value: `String.prototype.replace` gives `$` patterns in the replacement
special meaning, so calling the scenario operation with the argument
`"$&"` (which is not `\x7bid\x7d`) reinserts the matched `\x7bid\x7d` instead
of inserting `"$&"` — the compiled URL keeps the placeholder and is not the
template with `\x7bid\x7d` replaced by the argument's string form. -/
theorem pathSubstitutionCounterexample :
    (compile usersMeta apiTestConfig [JSValue.str "$&"]).url
        = "https://api.test/users/\x7bid\x7d" ∧
    (compile usersMeta apiTestConfig [JSValue.str "$&"]).url
        ≠ "https://api.test/users/$&" := by
  constructor
  · decide
  · decide

/-- C4 (amended): for an operation whose Path binding list is a single
binding on key `k` at argument position `i`, and whose URL template splits
as `a ++ "\x7bk\x7d" ++ b` with no occurrence of `\x7bk\x7d` starting inside
`a` (so this is the first occurrence), compilation replaces exactly that
occurrence with the string coercion of argument `i`, provided that string
contains no dollar character (else `$$`, `$&` and the dollar-backquote and
dollar-quote patterns are substituted). The replacement text is inserted
without rescanning, even when it contains `\x7bk\x7d` itself. -/
theorem pathSubstitutionSpec (meta : MethodMeta) (cfg : ClientConfig)
    (args : List JSValue) (k : String) (i : Nat) (a b : String)
    (hbind : meta.pPath = [⟨k, i⟩])
    (hurl : meta.url.data = a.data ++ (("\x7b" ++ k ++ "\x7d").data ++ b.data))
    (hfirst : ∀ j, j < a.data.length →
      ("\x7b" ++ k ++ "\x7d").data.isPrefixOf
        ((a.data ++ (("\x7b" ++ k ++ "\x7d").data ++ b.data)).drop j) = false)
    (hnodollar : dollarChar ∉ (jsToString (getArg args i)).data) :
    resolvePath meta args = a ++ (jsToString (getArg args i) ++ b) ∧
    (compile meta cfg args).url
      = composeUrl cfg.baseUrl (a ++ (jsToString (getArg args i) ++ b)) := by
  have hd : ("\x7b" ++ k ++ "\x7d").data = '\x7b' :: (k.data ++ ['\x7d']) := by
    rw [String.data_append, String.data_append]
    simp
  have hres : resolvePath meta args = a ++ (jsToString (getArg args i) ++ b) := by
    unfold resolvePath
    rw [hbind]
    show jsReplaceFirst meta.url ("\x7b" ++ k ++ "\x7d") (jsToString (getArg args i))
      = a ++ (jsToString (getArg args i) ++ b)
    rw [jsReplaceFirst, if_neg (by rw [hd]; simp)]
    have hcore := listReplaceFirst_first_occurrence ("\x7b" ++ k ++ "\x7d").data
      (jsToString (getArg args i)).data b.data a.data (by rw [hd]; simp) hfirst
    rw [getSubstitution_of_no_dollar _ _ _ _ hnodollar] at hcore
    calc (⟨listReplaceFirst ("\x7b" ++ k ++ "\x7d").data
            (jsToString (getArg args i)).data meta.url.data⟩ : String)
        = ⟨(a ++ (jsToString (getArg args i) ++ b)).data⟩ := by
          rw [hurl, hcore, String.data_append, String.data_append]
      _ = a ++ (jsToString (getArg args i) ++ b) := rfl
  exact ⟨hres, by show composeUrl cfg.baseUrl (resolvePath meta args) = _; rw [hres]⟩

/-- C4 (witness): the scenario template `/users/\x7bid\x7d` with Path binding
`id` at position 0, called with the dollar-free `"42"`, resolves to
`/users/42` and, with base URL `https://api.test`, compiles to
`https://api.test/users/42`. -/
theorem pathSubstitutionSpec_witness :
    resolvePath usersMeta [JSValue.str "42"] = "/users/42" ∧
    (compile usersMeta apiTestConfig [JSValue.str "42"]).url
      = "https://api.test/users/42" := by
  obtain ⟨h1, h2⟩ := pathSubstitutionSpec usersMeta apiTestConfig
    [JSValue.str "42"] "id" 0 "/users/" "" (by decide) (by decide) (by decide)
    (by decide)
  constructor
  · rw [h1]; decide
  · rw [h2]; decide

end AngularReset
